import Mathlib

/-!
# Verification of the `bunge-bits` ingestion pipeline core

A shallow embedding, in Lean 4, of the core data model and algorithms of the
`bunge-bits` repository (crates `stream_pulse` and `stream_datastore`), with
theorems settling the specification claims about:

* the Selection Stage (`sort_filter_limit_streams` in
  `stream_pulse/src/lib/processor.rs`),
* the Discovery Parser (`parse_streams` and `parse_duration_to_seconds` in
  `stream_pulse/src/lib/parser.rs`),
* the Audio Stage (`download_audio` / `process_audio` in `processor.rs`,
  mirrored by `yt/audio_handler.rs`),
* the Transcription Stage (`transcribe` for `OpenAIClient` in
  `stream_pulse/src/lib/llm/openai.rs`),
* the Summarization & Commit phase of `LiveStreamProcessor::run`
  (`processor.rs`), and
* `bulk_insert_streams` for `PgDataStore`
  (`stream_datastore/src/datastore/postgres.rs`).

Modelling conventions:

* Rust `String` / `&str` become Lean `String`; `PathBuf` becomes `String`
  with `Path::join` modelled as `pathJoin` (insertion of a `/` separator).
* Rust `f64` timestamp/duration arithmetic (in the transcription stage) is
  modelled as exact arithmetic in `ℚ`; the additions performed by the code
  (repeated addition of an integral chunk duration) are exact in `f64` for
  all magnitudes arising in practice.
* The filesystem is modelled as a list of existing paths, and the external
  tools (yt-dlp / ffmpeg) as oracles describing which invocations succeed
  and which files they create; each tool invocation is recorded in a trace
  so that "number of tool invocations" is observable.
* Fallible Rust functions returning `anyhow::Result` / custom error enums
  become `Except` with dedicated error inductive types.
* The `domain` module of `stream_datastore` (the `Stream` struct's
  declaration and its `timestamp_from_time_ago` method) is not among the
  provided sources; the struct's fields are reconstructed from their uses in
  `parser.rs`, `processor.rs` and `postgres.rs`, and the derived timestamp
  is abstracted as a function `tsOf : Stream → Option Int` (chrono
  `DateTime<Utc>` values are modelled as integers).  The comparator used by
  the Selection Stage, `Option::cmp` on the method's result, is Rust's
  derived ordering on `Option`: `None` compares less than `Some`.
-/

namespace BungeBits

/-! ## Data model: the `Stream` record

Fields as used across `parser.rs` (construction), `processor.rs`
(`video_id`, `summary_md`, `timestamp_from_time_ago`) and `postgres.rs`
(all columns of the insert).  -/

structure Stream where
  video_id : String
  title : String
  view_count : String
  streamed_date : String
  duration : String
  summary_md : Option String
  timestamp_md : Option String
  deriving DecidableEq, Repr

/-! ## Selection Stage (`sort_filter_limit_streams`, processor.rs:142-175)

The Rust code filters out streams whose `video_id` is in the set returned by
`get_existing_stream_ids`, then stable-sorts by
`timestamp_from_time_ago()` ascending (`itertools::sorted_by` collects into
a `Vec` and uses Rust's stable `sort_by`), then takes the first
`max_streams`.  The comparator is `Option::<DateTime<Utc>>::cmp`, for which
`None < Some _`.  We embed the stable sort as `List.insertionSort`, which is
stable and sorts with respect to the same total preorder, hence produces the
same list as any other stable sort. -/

/-- Rust's derived `Ord` on `Option<T>` (as an `Ordering`-valued comparator):
`None` is less than `Some`, two `Some`s compare by the inner value. -/
def optionTsCmp : Option Int → Option Int → Ordering
  | none, none => .eq
  | none, some _ => .lt
  | some _, none => .gt
  | some x, some y => if x < y then .lt else if x = y then .eq else .gt

/-- The (total pre-)order used by the Selection Stage's stable sort:
`a` precedes-or-ties `b` when the comparator does not say `Greater`. -/
def streamLe (tsOf : Stream → Option Int) (a b : Stream) : Prop :=
  optionTsCmp (tsOf a) (tsOf b) ≠ .gt

instance (tsOf : Stream → Option Int) : DecidableRel (streamLe tsOf) := by
  intro a b
  unfold streamLe
  infer_instance

theorem optionTsCmp_gt_iff (a b : Option Int) :
    optionTsCmp a b = .gt ↔ optionTsCmp b a = .lt := by
  cases a <;> cases b <;> simp [optionTsCmp] <;> omega

instance (tsOf : Stream → Option Int) : IsTotal Stream (streamLe tsOf) := by
  constructor
  intro a b
  by_cases h : optionTsCmp (tsOf a) (tsOf b) = .gt
  · right
    rw [optionTsCmp_gt_iff] at h
    simp [streamLe, h]
  · exact Or.inl h

instance (tsOf : Stream → Option Int) : IsTrans Stream (streamLe tsOf) := by
  constructor
  intro a b c hab hbc
  unfold streamLe at *
  cases ha : tsOf a <;> cases hb : tsOf b <;> cases hc : tsOf c <;>
    simp_all [optionTsCmp] <;> omega

/-- The filter step of the Selection Stage: drop every candidate whose
`video_id` is among the existing ids. -/
def filteredStreams (existing : List String) (streams : List Stream) : List Stream :=
  streams.filter fun s => !(existing.contains s.video_id)

/-- The stable ascending sort by derived timestamp (itertools `sorted_by`
with the `Option<DateTime<Utc>>` comparator). -/
def sortedStreams (tsOf : Stream → Option Int) (existing : List String)
    (streams : List Stream) : List Stream :=
  (filteredStreams existing streams).insertionSort (streamLe tsOf)

/-- `sort_filter_limit_streams` (processor.rs:142-175), with the storage
lookup already resolved to the id list `existing`: filter out existing ids,
stable-sort ascending by derived timestamp, take the first `max_streams`. -/
def sort_filter_limit_streams (tsOf : Stream → Option Int) (existing : List String)
    (streams : List Stream) (max_streams : Nat) : List Stream :=
  (sortedStreams tsOf existing streams).take max_streams

/-- Helper: everything in the `take`-prefix is related to everything in the
corresponding `drop`-suffix of a pairwise-related list. -/
theorem pairwise_take_drop {α : Type} {R : α → α → Prop} {l : List α} (h : l.Pairwise R)
    (n : Nat) : ∀ a ∈ l.take n, ∀ b ∈ l.drop n, R a b := by
  intro a ha b hb
  rw [← List.take_append_drop n l] at h
  exact (List.pairwise_append.mp h).2.2 a ha b hb

/-- Sample stream records for concrete witnesses. -/
def streamA : Stream :=
  { video_id := "a", title := "A", view_count := "1 view", streamed_date := "1 day ago",
    duration := "1:00:00", summary_md := none, timestamp_md := none }

def streamB : Stream :=
  { video_id := "b", title := "B", view_count := "2 views", streamed_date := "2 days ago",
    duration := "2:00:00", summary_md := none, timestamp_md := none }

def streamN : Stream :=
  { video_id := "n", title := "N", view_count := "3 views", streamed_date := "Streamed live",
    duration := "3:00:00", summary_md := none, timestamp_md := none }

/-- A sample derived-timestamp assignment: `streamN`'s relative-time text is
unparsable (`none`), the others resolve to concrete instants. -/
def tsDemo (s : Stream) : Option Int :=
  if s.video_id = "n" then none else if s.video_id = "a" then some 5 else some 3

/-- **C1**: for every candidate list `C`, existing-id set `E` and cap
`max_items`, the Selection Stage returns exactly the candidates of `C` whose
id is not in `E`, stably sorted ascending by derived timestamp, truncated to
the first `max_items`; the output length is at most `max_items` and at most
`|C \ E|`. -/
theorem C1_selection_stage (tsOf : Stream → Option Int) (C : List Stream) (E : List String)
    (max_items : Nat) :
    sort_filter_limit_streams tsOf E C max_items = (sortedStreams tsOf E C).take max_items
    ∧ (sortedStreams tsOf E C).Perm (filteredStreams E C)
    ∧ (∀ s, s ∈ filteredStreams E C ↔ s ∈ C ∧ E.contains s.video_id = false)
    ∧ List.Sorted (streamLe tsOf) (sortedStreams tsOf E C)
    ∧ (∀ a b, [a, b].Sublist (filteredStreams E C) → streamLe tsOf a b →
        [a, b].Sublist (sortedStreams tsOf E C))
    ∧ (sort_filter_limit_streams tsOf E C max_items).length ≤ max_items
    ∧ (sort_filter_limit_streams tsOf E C max_items).length ≤ (filteredStreams E C).length := by
  refine ⟨rfl, List.perm_insertionSort _ _, ?_, List.sorted_insertionSort _ _, ?_, ?_, ?_⟩
  · intro s
    simp [filteredStreams, List.mem_filter]
  · intro a b hab hle
    exact List.pair_sublist_insertionSort hle hab
  · simpa [sort_filter_limit_streams] using List.length_take_le _ _
  · calc (sort_filter_limit_streams tsOf E C max_items).length
        ≤ (sortedStreams tsOf E C).length := by
          simpa [sort_filter_limit_streams] using List.length_take_le' _ _
      _ = (filteredStreams E C).length := (List.perm_insertionSort _ _).length_eq

/-- Witness for C1 at a concrete instance: the stability conjunct applied to
the pair (unparsable-date stream, parsable-date stream). -/
theorem C1_selection_stage_witness :
    ([streamN, streamB].Sublist (filteredStreams [] [streamA, streamN, streamB])
      ∧ streamLe tsDemo streamN streamB)
    ∧ [streamN, streamB].Sublist (sortedStreams tsDemo [] [streamA, streamN, streamB]) := by
  refine ⟨⟨by decide, by decide⟩, ?_⟩
  exact (C1_selection_stage tsDemo [streamA, streamN, streamB] [] 3).2.2.2.2.1 streamN streamB
    (by decide) (by decide)

/-- **C9**: candidates whose derived timestamp is absent are retained by the
Selection Stage's sort in their original relative order (stability), are
ordered before every candidate with a present timestamp, never disappear
from the sort, and — because they occupy the front of the sorted list — are
in the truncated batch whenever any present-timestamp candidate is. -/
theorem C9_absent_timestamp_ordering (tsOf : Stream → Option Int) (C : List Stream)
    (E : List String) (max_items : Nat) :
    ((filteredStreams E C).filter fun s => (tsOf s).isNone).Sublist (sortedStreams tsOf E C)
    ∧ (sortedStreams tsOf E C).Pairwise (fun a b => tsOf b = none → tsOf a = none)
    ∧ (∀ s ∈ filteredStreams E C, tsOf s = none → s ∈ sortedStreams tsOf E C)
    ∧ (∀ s ∈ sort_filter_limit_streams tsOf E C max_items, (tsOf s).isSome →
        ∀ t ∈ filteredStreams E C, tsOf t = none →
          t ∈ sort_filter_limit_streams tsOf E C max_items) := by
  have hsorted := List.sorted_insertionSort (streamLe tsOf) (filteredStreams E C)
  refine ⟨?_, ?_, ?_, ?_⟩
  · refine List.sublist_insertionSort ?_ (List.filter_sublist _)
    refine List.pairwise_iff_forall_sublist.mpr ?_
    intro a b hab
    -- both a and b are members of the filtered list with `isNone` timestamps
    have hamem : a ∈ (filteredStreams E C).filter fun s => (tsOf s).isNone :=
      hab.subset (by simp)
    have hbmem : b ∈ (filteredStreams E C).filter fun s => (tsOf s).isNone :=
      hab.subset (by simp)
    have ha' := (List.mem_filter.mp hamem).2
    have hb' := (List.mem_filter.mp hbmem).2
    simp only [Option.isNone_iff_eq_none] at ha' hb'
    simp [streamLe, ha', hb', optionTsCmp]
  · refine hsorted.imp ?_
    intro a b hle hb
    by_contra ha
    rcases Option.ne_none_iff_exists'.mp ha with ⟨x, hx⟩
    simp [streamLe, hx, hb, optionTsCmp] at hle
  · intro s hs _
    exact (List.mem_insertionSort _).mpr hs
  · intro s hs hsome t ht htnone
    have htS : t ∈ sortedStreams tsOf E C := (List.mem_insertionSort _).mpr ht
    by_contra htout
    have htdrop : t ∈ (sortedStreams tsOf E C).drop max_items := by
      have := (List.take_append_drop max_items (sortedStreams tsOf E C)) ▸ htS
      rcases List.mem_append.mp this with h | h
      · exact absurd h htout
      · exact h
    have hle : streamLe tsOf s t :=
      pairwise_take_drop hsorted max_items s hs t htdrop
    rcases Option.isSome_iff_exists.mp hsome with ⟨x, hx⟩
    simp [streamLe, hx, htnone, optionTsCmp] at hle

/-- Witness for C9 at a concrete instance: with a batch of size 1, the
unparsable-date stream is in the batch and the present-timestamp streams are
not; the batch-retention conjunct is applied to it. -/
theorem C9_absent_timestamp_ordering_witness :
    (streamB ∈ sort_filter_limit_streams tsDemo [] [streamA, streamN, streamB] 2
      ∧ (tsDemo streamB).isSome ∧ streamN ∈ filteredStreams [] [streamA, streamN, streamB]
      ∧ tsDemo streamN = none)
    ∧ streamN ∈ sort_filter_limit_streams tsDemo [] [streamA, streamN, streamB] 2 := by
  refine ⟨⟨by decide, by decide, by decide, by decide⟩, ?_⟩
  exact (C9_absent_timestamp_ordering tsDemo [streamA, streamN, streamB] [] 2).2.2.2 streamB
    (by decide) (by decide) streamN (by decide) (by decide)

/-! ## Discovery Parser (`parser.rs`)

`parse_duration_to_seconds` (parser.rs:72-84) splits the duration string on
`':'`, keeps only the components that parse as `u64` (`filter_map` drops the
ones that do not), and combines 3/2/1 surviving components as
HH:MM:SS / MM:SS / SS; any other number of surviving components yields
`None`. -/

/-- Rust `str::split(':')`: all components between occurrences of `':'`,
empty components included (`""` splits to `[""]`). -/
def splitCols : List Char → List (List Char)
  | [] => [[]]
  | c :: rest =>
    if c = ':' then [] :: splitCols rest
    else
      match splitCols rest with
      | [] => [[c]]
      | h :: t => (c :: h) :: t

/-- Decimal value of a digit list (left fold, as the usual decimal
valuation). -/
def digitsToNat (l : List Char) : Nat :=
  l.foldl (fun acc c => acc * 10 + (c.toNat - '0'.toNat)) 0

/-- Rust `str::parse::<u64>()`: an optional leading `'+'`, then one or more
ASCII digits, value below `2^64`; anything else is a parse error (`none`). -/
def parseU64 (l : List Char) : Option Nat :=
  let ds := if l.head? = some '+' then l.tail else l
  if ds.isEmpty then none
  else if ds.all (·.isDigit) then
    if digitsToNat ds < 2 ^ 64 then some (digitsToNat ds) else none
  else none

/-- `parse_duration_to_seconds` (parser.rs:72-84).  The combinations
`parts[0] * 3600 + parts[1] * 60 + parts[2]` and `parts[0] * 60 + parts[1]`
are computed in `u64`, whose release-mode semantics wraps on overflow;
wrapping each operation and reducing the exact result once modulo `2^64`
agree, so the wrap is applied to the whole combination.  (With overflow
checks enabled the program would panic instead; the release semantics is
modelled.)  The single-component case returns the parsed `u64` with no
arithmetic. -/
def parse_duration_to_seconds (s : String) : Option Nat :=
  match (splitCols s.data).filterMap parseU64 with
  | [h, m, sec] => some ((h * 3600 + m * 60 + sec) % 2 ^ 64)
  | [m, sec] => some ((m * 60 + sec) % 2 ^ 64)
  | [sec] => some sec
  | _ => none

/-- The duration grammar named by the spec: `HH:MM:SS | MM:SS | SS` with
between one and three components, each a nonempty run of ASCII digits. -/
def validDurationShape (s : String) : Bool :=
  let parts := splitCols s.data
  decide (1 ≤ parts.length) && decide (parts.length ≤ 3) &&
    parts.all fun p => !p.isEmpty && p.all (·.isDigit)

/-- The second count the spec's grammar assigns to a valid duration string
(positional combination of the decimal component values). -/
def specDurationSeconds (s : String) : Nat :=
  match (splitCols s.data).map digitsToNat with
  | [h, m, sec] => h * 3600 + m * 60 + sec
  | [m, sec] => m * 60 + sec
  | [sec] => sec
  | _ => 0

theorem parseU64_of_digits {p : List Char} (hne : p ≠ []) (hdig : p.all (·.isDigit))
    (hlt : digitsToNat p < 2 ^ 64) : parseU64 p = some (digitsToNat p) := by
  have hhead : p.head? ≠ some '+' := by
    cases p with
    | nil => simp
    | cons c rest =>
      have := (List.all_cons .. ▸ hdig)
      simp only [Bool.and_eq_true] at this
      have hc : c.isDigit = true := this.1
      simp only [List.head?]
      intro h
      rw [Option.some_inj] at h
      subst h
      simp [Char.isDigit] at hc
  unfold parseU64
  rw [if_neg hhead]
  rw [if_neg (by simpa [List.isEmpty_iff] using hne), if_pos hdig, if_pos hlt]

theorem filterMap_eq_map_of_all_some {α β : Type} {f : α → Option β} {g : α → β}
    {l : List α} (h : ∀ x ∈ l, f x = some (g x)) : l.filterMap f = l.map g := by
  induction l with
  | nil => rfl
  | cons a l ih =>
    rw [List.filterMap_cons, h a (by simp), List.map_cons,
      ih fun x hx => h x (List.mem_cons_of_mem _ hx)]

/-- **C6 (counterexample)**: `"12:xx"` is not of the `HH:MM:SS|MM:SS|SS`
all-numeric shape, yet the parser yields a value (`filter_map` silently
drops the non-numeric component, leaving the single component `12`),
refuting "for every string of any other shape the parser yields no
value". -/
theorem C6_duration_parser_counterexample :
    validDurationShape "12:xx" = false ∧ parse_duration_to_seconds "12:xx" = some 12 := by
  constructor <;> decide

/-- **C6 (amended)**: on strings of the valid `HH:MM:SS|MM:SS|SS` shape
(components in `u64` range) the parser computes the positional second count
reduced modulo `2^64` (the `u64` wrap), hence the exact count whenever that
count fits in a `u64` — in particular `"1:02:03" ↦ 3723`, `"12:34" ↦ 754`,
`"45" ↦ 45`; on any other string, colon-separated components that fail to
parse as `u64` are dropped, and the parser yields the positional
combination (mod `2^64`) of the surviving components when one to three
survive, and no value when zero or more than three survive. -/
theorem C6_duration_parser_amended (s : String) :
    (validDurationShape s = true →
      (∀ p ∈ splitCols s.data, digitsToNat p < 2 ^ 64) →
      parse_duration_to_seconds s = some (specDurationSeconds s % 2 ^ 64)
      ∧ (specDurationSeconds s < 2 ^ 64 →
          parse_duration_to_seconds s = some (specDurationSeconds s)))
    ∧ parse_duration_to_seconds "1:02:03" = some 3723
    ∧ parse_duration_to_seconds "12:34" = some 754
    ∧ parse_duration_to_seconds "45" = some 45
    ∧ (∀ a, (splitCols s.data).filterMap parseU64 = [a] →
        parse_duration_to_seconds s = some a)
    ∧ (∀ a b, (splitCols s.data).filterMap parseU64 = [a, b] →
        parse_duration_to_seconds s = some ((a * 60 + b) % 2 ^ 64))
    ∧ (∀ a b c, (splitCols s.data).filterMap parseU64 = [a, b, c] →
        parse_duration_to_seconds s = some ((a * 3600 + b * 60 + c) % 2 ^ 64))
    ∧ ((((splitCols s.data).filterMap parseU64).length = 0 ∨
          4 ≤ ((splitCols s.data).filterMap parseU64).length) →
        parse_duration_to_seconds s = none) := by
  refine ⟨?_, by decide, by decide, by decide, ?_, ?_, ?_, ?_⟩
  · intro hshape hbound
    simp only [validDurationShape, Bool.and_eq_true, decide_eq_true_eq, List.all_eq_true] at hshape
    obtain ⟨⟨h1, h3⟩, hcomp⟩ := hshape
    have hmap : (splitCols s.data).filterMap parseU64 = (splitCols s.data).map digitsToNat := by
      refine filterMap_eq_map_of_all_some fun p hp => ?_
      obtain ⟨hne, hdig⟩ := hcomp p hp
      exact parseU64_of_digits (by simpa [List.isEmpty_iff] using hne)
        (by simpa [List.all_eq_true] using hdig) (hbound p hp)
    have key : parse_duration_to_seconds s = some (specDurationSeconds s % 2 ^ 64) := by
      unfold parse_duration_to_seconds specDurationSeconds
      rw [hmap]
      rcases hsp : splitCols s.data with _ | ⟨a, _ | ⟨b, _ | ⟨c, _ | d⟩⟩⟩
      · simp_all
      · have hb : digitsToNat a < 2 ^ 64 := hbound a (by rw [hsp]; exact List.mem_singleton_self a)
        simp only [List.map_cons, List.map_nil]
        rw [Nat.mod_eq_of_lt hb]
      · rfl
      · rfl
      · rw [hsp] at h3
        simp at h3
    exact ⟨key, fun hlt => by rw [key, Nat.mod_eq_of_lt hlt]⟩
  · intro a ha
    unfold parse_duration_to_seconds
    rw [ha]
  · intro a b hab
    unfold parse_duration_to_seconds
    rw [hab]
  · intro a b c habc
    unfold parse_duration_to_seconds
    rw [habc]
  · intro hlen
    unfold parse_duration_to_seconds
    rcases hsp : (splitCols s.data).filterMap parseU64 with _ | ⟨a, _ | ⟨b, _ | ⟨c, _ | d⟩⟩⟩ <;>
      simp_all

/-- Witness for the amended C6: the valid shape `"1:02:03"` with in-range
components evaluates to exactly 3723 seconds. -/
theorem C6_duration_parser_amended_witness :
    (validDurationShape "1:02:03" = true
      ∧ (∀ p ∈ splitCols "1:02:03".data, digitsToNat p < 2 ^ 64)
      ∧ specDurationSeconds "1:02:03" < 2 ^ 64)
    ∧ parse_duration_to_seconds "1:02:03" = some (specDurationSeconds "1:02:03") := by
  refine ⟨⟨by decide, by decide, by decide⟩, ?_⟩
  exact ((C6_duration_parser_amended "1:02:03").1 (by decide) (by decide)).2 (by decide)

/-! ## Discovery Parser: node filtering (`parse_streams`, parser.rs:29-70)

The `VideoRenderer` struct is declared in the crate's `types` module, which
is not among the provided sources; its relevant shape is reconstructed from
its uses in `parser.rs` (`upcoming_event_data`, `view_count_text`,
`published_time_text`, `title.runs[0].text`, `length_text.simple_text`,
`video_id`).  A page node either lacks a `videoRenderer` object (silent
skip), has one that fails to deserialize (hard error via `?`), or yields a
`VideoRenderer`. -/

structure TitleRun where
  text : String
  deriving DecidableEq, Repr

structure RendererTitle where
  runs : List TitleRun
  deriving DecidableEq, Repr

/-- A `{"simpleText": ...}` wrapper whose serde `Default` has no text. -/
structure SimpleTextObj where
  simple_text : Option String
  deriving DecidableEq, Repr

structure LengthText where
  simple_text : String
  deriving DecidableEq, Repr

structure VideoRenderer where
  video_id : String
  title : RendererTitle
  published_time_text : Option SimpleTextObj
  view_count_text : Option SimpleTextObj
  length_text : Option LengthText
  upcoming_event_data : Option Unit
  deriving DecidableEq, Repr

inductive ParseErr
  /-- `Failed to get video title via ['title']['runs'][0]['text']` -/
  | titleMissing
  /-- `No value found for 'lengthText'` -/
  | lengthTextMissing
  /-- serde deserialization failure of the `videoRenderer` object -/
  | deserialization
  deriving DecidableEq, Repr

/-- `TryFrom<VideoRenderer> for Stream` (parser.rs:86-141): title from the
first run (mandatory), view count and streamed date defaulting to `""` when
the wrapper or its `simpleText` is absent, duration from the mandatory
`lengthText`. -/
def streamOfVideoRenderer (vr : VideoRenderer) : Except ParseErr Stream :=
  match vr.title.runs.head? with
  | none => .error .titleMissing
  | some r0 =>
    match vr.length_text with
    | none => .error .lengthTextMissing
    | some lt =>
      .ok { video_id := vr.video_id
            title := r0.text
            view_count := ((vr.view_count_text.getD ⟨none⟩).simple_text).getD ""
            streamed_date := ((vr.published_time_text.getD ⟨none⟩).simple_text).getD ""
            duration := lt.simple_text
            summary_md := none
            timestamp_md := none }

inductive Node
  /-- `item["richItemRenderer"]["content"]["videoRenderer"]` is absent or
  not an object: the `if let Ok(..)` pattern silently skips the node. -/
  | missingRenderer
  /-- the object is present but `serde_json::from_value` fails: hard error
  propagated with `?`. -/
  | malformedRenderer
  | renderer (vr : VideoRenderer)
  deriving DecidableEq, Repr

/-- The body of the `parse_streams` loop (parser.rs:37-62) for one node:
`ok none` is a silent skip, `ok (some s)` pushes the stream, `error` aborts
the whole parse. -/
def processNode : Node → Except ParseErr (Option Stream)
  | .missingRenderer => .ok none
  | .malformedRenderer => .error .deserialization
  | .renderer vr =>
    if vr.upcoming_event_data.isSome || vr.view_count_text.isNone
        || vr.published_time_text.isNone then
      .ok none
    else
      match streamOfVideoRenderer vr with
      | .error e => .error e
      | .ok s =>
        match parse_duration_to_seconds s.duration with
        | some d => if d < 600 then .ok none else .ok (some s)
        | none => .ok none

/-- `parse_streams` (parser.rs:29-70) over the extracted list of item
nodes: fold of `processNode`, collecting the streams that survive. -/
def parse_streams : List Node → Except ParseErr (List Stream)
  | [] => .ok []
  | n :: rest =>
    match processNode n with
    | .error e => .error e
    | .ok none => parse_streams rest
    | .ok (some s) => (parse_streams rest).map fun l => s :: l

/-- **C5**: upcoming/scheduled nodes and nodes missing view-count or
published-time are silently skipped (no error); so are nodes whose duration
is unparsable or parses below 600 seconds; a node meeting none of the skip
conditions (and building a well-formed stream) is included; and
`parse_streams` is exactly the collection of the per-node outcomes. -/
theorem C5_discovery_node_filtering :
    (∀ vr : VideoRenderer,
      (vr.upcoming_event_data.isSome ∨ vr.view_count_text = none
          ∨ vr.published_time_text = none) →
        processNode (.renderer vr) = .ok none)
    ∧ (∀ (vr : VideoRenderer) (s : Stream) (d : Nat),
        streamOfVideoRenderer vr = .ok s →
        parse_duration_to_seconds s.duration = some d → d < 600 →
        processNode (.renderer vr) = .ok none)
    ∧ (∀ (vr : VideoRenderer) (s : Stream),
        streamOfVideoRenderer vr = .ok s →
        parse_duration_to_seconds s.duration = none →
        processNode (.renderer vr) = .ok none)
    ∧ (∀ (vr : VideoRenderer) (s : Stream) (d : Nat),
        vr.upcoming_event_data = none → vr.view_count_text ≠ none →
        vr.published_time_text ≠ none →
        streamOfVideoRenderer vr = .ok s →
        parse_duration_to_seconds s.duration = some d → ¬ d < 600 →
        processNode (.renderer vr) = .ok (some s))
    ∧ (∀ nodes : List Node,
        parse_streams nodes = (nodes.mapM' processNode).map fun l => l.filterMap id) := by
  refine ⟨?_, ?_, ?_, ?_, ?_⟩
  · intro vr h
    simp only [processNode]
    rw [if_pos]
    rcases h with h | h | h <;> simp [h]
  · intro vr s d hvr hdur hlt
    simp only [processNode]
    split
    · rfl
    · rw [hvr]
      simp [hdur, hlt]
  · intro vr s hvr hdur
    simp only [processNode]
    split
    · rfl
    · rw [hvr]
      simp [hdur]
  · intro vr s d hup hvc hpt hvr hdur hge
    simp only [processNode]
    rw [if_neg (by simp [hup, Option.isNone_iff_eq_none, hvc, hpt]), hvr]
    simp [hdur, hge]
  · intro nodes
    induction nodes with
    | nil => rfl
    | cons n rest ih =>
      simp only [parse_streams, List.mapM'_cons]
      cases hn : processNode n with
      | error e => simp [hn, Except.instMonad, Except.map, Except.bind]
      | ok o =>
        cases ho : rest.mapM' processNode with
        | error e =>
          cases o <;> simp_all [Except.instMonad, Except.map, Except.bind, Except.pure]
        | ok os =>
          cases o <;> simp_all [Except.instMonad, Except.map, Except.bind, Except.pure]

/-- Sample well-formed renderer node for the C5 witness. -/
def vrDemo : VideoRenderer :=
  { video_id := "vid1"
    title := ⟨[⟨"Plenary Sitting"⟩]⟩
    published_time_text := some ⟨some "3 days ago"⟩
    view_count_text := some ⟨some "1,234 views"⟩
    length_text := some ⟨"1:00:00"⟩
    upcoming_event_data := none }

/-- Witness for C5: the inclusion conjunct applied to a concrete
well-formed node of duration one hour. -/
theorem C5_discovery_node_filtering_witness :
    (vrDemo.upcoming_event_data = none ∧ vrDemo.view_count_text ≠ none
      ∧ vrDemo.published_time_text ≠ none
      ∧ streamOfVideoRenderer vrDemo =
          .ok { video_id := "vid1", title := "Plenary Sitting", view_count := "1,234 views",
                streamed_date := "3 days ago", duration := "1:00:00",
                summary_md := none, timestamp_md := none }
      ∧ parse_duration_to_seconds "1:00:00" = some 3600 ∧ ¬ 3600 < 600)
    ∧ processNode (.renderer vrDemo) =
        .ok (some { video_id := "vid1", title := "Plenary Sitting", view_count := "1,234 views",
                    streamed_date := "3 days ago", duration := "1:00:00",
                    summary_md := none, timestamp_md := none }) := by
  refine ⟨⟨by decide, by decide, by decide, rfl, by decide, by decide⟩, ?_⟩
  exact C5_discovery_node_filtering.2.2.2.1 vrDemo _ 3600 (by decide) (by decide) (by decide)
    rfl (by decide) (by decide)

/-! ## Audio Stage (`download_audio` / `process_audio`, processor.rs:85-139)

The filesystem is a list of existing paths; the yt-dlp/ffmpeg tools are an
oracle (`ToolBehavior`) saying whether each invocation succeeds and which
files the download creates.  Every tool invocation is recorded in a trace,
so "zero tool invocations" is the trace being empty.  `Path::join` is
modelled as `pathJoin`. -/

def pathJoin (dir file : String) : String := dir ++ "/" ++ file

inductive ToolCall
  | download
  | denoise
  | normalize
  | trim
  deriving DecidableEq, Repr

/-- Outcomes of the external tool invocations: whether `yt_dlp.download_audio`
succeeds and which files it creates, and whether each ffmpeg cleanup step
succeeds (a successful cleanup step writes exactly its output file). -/
structure ToolBehavior where
  downloadOk : Bool
  downloadAdds : List String
  denoiseOk : Bool
  normalizeOk : Bool
  trimOk : Bool
  deriving DecidableEq, Repr

inductive AudioError
  /-- `Failed to download audio: ...` (processor.rs:99) -/
  | downloadFailed
  /-- `yt-dlp did not produce expected file: ...` (processor.rs:103-106) -/
  | missingOutput
  /-- any failure of the denoise → normalize → trim chain (processor.rs:128-134) -/
  | cleanupFailed
  deriving DecidableEq, Repr

/-- `download_audio` (processor.rs:85-112, identical logic in
`audio_handler.rs::download`): skip if `{video_id}.mp3` exists; otherwise
invoke the tool, fail hard if it errors, and fail hard if it reports success
but the expected file is still absent. -/
def download_audio (tb : ToolBehavior) (video_id dir : String) (files : List String) :
    Except AudioError String × List String × List ToolCall :=
  let mp3 := pathJoin dir (video_id ++ ".mp3")
  if files.contains mp3 then (.ok mp3, files, [])
  else if tb.downloadOk then
    let files' := tb.downloadAdds ++ files
    if files'.contains mp3 then (.ok mp3, files', [.download])
    else (.error .missingOutput, files', [.download])
  else (.error .downloadFailed, files, [.download])

/-- `process_audio` (processor.rs:117-139, identical logic in
`audio_handler.rs::clean_up`): skip the whole denoise → normalize → trim
chain if the final `_trimmed` artifact exists; otherwise run it, each
successful step writing its output file, any failure aborting the chain and
leaving earlier intermediates in place. -/
def process_audio (tb : ToolBehavior) (video_id dir : String) (files : List String) :
    Except AudioError String × List String × List ToolCall :=
  let denoised := pathJoin dir (video_id ++ "_denoised.mp3")
  let normalized := pathJoin dir (video_id ++ "_normalized.mp3")
  let trimmed := pathJoin dir (video_id ++ "_trimmed.mp3")
  if files.contains trimmed then (.ok trimmed, files, [])
  else if tb.denoiseOk then
    if tb.normalizeOk then
      if tb.trimOk then
        (.ok trimmed, trimmed :: normalized :: denoised :: files,
          [.denoise, .normalize, .trim])
      else (.error .cleanupFailed, normalized :: denoised :: files,
        [.denoise, .normalize, .trim])
    else (.error .cleanupFailed, denoised :: files, [.denoise, .normalize])
  else (.error .cleanupFailed, files, [.denoise])

/-- One item's Audio Stage as composed in `run` (processor.rs:193-200):
`download_audio(stream, &audio_dl_path).and_then(|dl_path|
process_audio(stream, &dl_path))` — note the returned mp3 path is what is
passed to `process_audio` as its directory argument. -/
def audio_stage_item (tb : ToolBehavior) (video_id dir : String) (files : List String) :
    Except AudioError String × List String × List ToolCall :=
  match download_audio tb video_id dir files with
  | (.ok dlPath, files₁, calls₁) =>
    match process_audio tb video_id dlPath files₁ with
    | (r, files₂, calls₂) => (r, files₂, calls₁ ++ calls₂)
  | (.error e, files₁, calls₁) => (.error e, files₁, calls₁)

/-- Inversion for a successful Audio Stage run: the returned path is the
trimmed artifact, and both gating artifacts (the acquisition output and the
final trimmed file) exist in the resulting filesystem. -/
theorem audio_stage_item_ok {tb : ToolBehavior} {vid dir : String} {files files' : List String}
    {p : String} {calls : List ToolCall}
    (h : audio_stage_item tb vid dir files = (.ok p, files', calls)) :
    p = pathJoin (pathJoin dir (vid ++ ".mp3")) (vid ++ "_trimmed.mp3")
    ∧ files'.contains (pathJoin dir (vid ++ ".mp3")) = true
    ∧ files'.contains p = true := by
  simp only [audio_stage_item, download_audio, process_audio] at h
  split_ifs at h <;> simp_all [List.contains_cons] <;>
    (try split_ifs at h) <;> (try simp_all [List.contains_cons]) <;>
    (try (obtain ⟨hp, hf, hc⟩ := h
          subst hp
          subst hf
          simp_all))

/-- **C3**: if the acquisition artifact (`{id}.mp3`) and the final trimmed
artifact already exist on disk, the Audio Stage performs zero tool
invocations and returns the final artifact path; consequently a second run
after any successful run performs zero tool invocations and returns the
same final artifact path. -/
theorem C3_audio_stage_idempotent (tb : ToolBehavior) (vid dir : String)
    (files : List String) :
    (files.contains (pathJoin dir (vid ++ ".mp3")) = true →
      files.contains (pathJoin (pathJoin dir (vid ++ ".mp3")) (vid ++ "_trimmed.mp3")) = true →
      audio_stage_item tb vid dir files =
        (.ok (pathJoin (pathJoin dir (vid ++ ".mp3")) (vid ++ "_trimmed.mp3")), files, []))
    ∧ (∀ p files' calls,
        audio_stage_item tb vid dir files = (.ok p, files', calls) →
        audio_stage_item tb vid dir files' = (.ok p, files', [])) := by
  constructor
  · intro h1 h2
    have h1' : pathJoin dir (vid ++ ".mp3") ∈ files := by simpa using h1
    have h2' : pathJoin (pathJoin dir (vid ++ ".mp3")) (vid ++ "_trimmed.mp3") ∈ files := by
      simpa using h2
    simp [audio_stage_item, download_audio, process_audio, h1', h2']
  · intro p files' calls hrun
    obtain ⟨hp, h1, h2⟩ := audio_stage_item_ok hrun
    subst hp
    have h1' : pathJoin dir (vid ++ ".mp3") ∈ files' := by simpa using h1
    have h2' : pathJoin (pathJoin dir (vid ++ ".mp3")) (vid ++ "_trimmed.mp3") ∈ files' := by
      simpa using h2
    simp [audio_stage_item, download_audio, process_audio, h1', h2']

/-- Tool behavior for witnesses: everything succeeds and the download
creates the expected mp3. -/
def tbDemo : ToolBehavior :=
  { downloadOk := true, downloadAdds := ["wd/audio/v.mp3"],
    denoiseOk := true, normalizeOk := true, trimOk := true }

/-- Witness for C3: after a concrete successful first run (which invokes
all four tools), the second run makes zero tool invocations and returns the
same trimmed artifact path. -/
theorem C3_audio_stage_idempotent_witness :
    audio_stage_item tbDemo "v" "wd/audio" [] =
      (.ok "wd/audio/v.mp3/v_trimmed.mp3",
        ["wd/audio/v.mp3/v_trimmed.mp3", "wd/audio/v.mp3/v_normalized.mp3",
          "wd/audio/v.mp3/v_denoised.mp3", "wd/audio/v.mp3"],
        [.download, .denoise, .normalize, .trim])
    ∧ audio_stage_item tbDemo "v" "wd/audio"
        ["wd/audio/v.mp3/v_trimmed.mp3", "wd/audio/v.mp3/v_normalized.mp3",
          "wd/audio/v.mp3/v_denoised.mp3", "wd/audio/v.mp3"] =
      (.ok "wd/audio/v.mp3/v_trimmed.mp3",
        ["wd/audio/v.mp3/v_trimmed.mp3", "wd/audio/v.mp3/v_normalized.mp3",
          "wd/audio/v.mp3/v_denoised.mp3", "wd/audio/v.mp3"], []) := by
  refine ⟨rfl, ?_⟩
  exact (C3_audio_stage_idempotent tbDemo "v" "wd/audio" []).2
    "wd/audio/v.mp3/v_trimmed.mp3"
    ["wd/audio/v.mp3/v_trimmed.mp3", "wd/audio/v.mp3/v_normalized.mp3",
      "wd/audio/v.mp3/v_denoised.mp3", "wd/audio/v.mp3"]
    [.download, .denoise, .normalize, .trim] rfl

/-- **C8**: with the expected output absent, a failing acquisition tool
makes the Acquire step fail with the download error, and a tool run that
reports success without producing the expected file makes it fail with the
missing-output error — in neither case is the step a success. -/
theorem C8_acquire_contract (tb : ToolBehavior) (vid dir : String) (files : List String) :
    files.contains (pathJoin dir (vid ++ ".mp3")) = false →
    ((tb.downloadOk = false →
        download_audio tb vid dir files = (.error .downloadFailed, files, [.download]))
      ∧ (tb.downloadOk = true →
          (tb.downloadAdds ++ files).contains (pathJoin dir (vid ++ ".mp3")) = false →
          download_audio tb vid dir files =
            (.error .missingOutput, tb.downloadAdds ++ files, [.download]))) := by
  intro h
  have h' : pathJoin dir (vid ++ ".mp3") ∉ files := by simpa using h
  constructor
  · intro h1
    simp [download_audio, h', h1]
  · intro h1 h2
    have h2' : ¬ (pathJoin dir (vid ++ ".mp3") ∈ tb.downloadAdds
        ∨ pathJoin dir (vid ++ ".mp3") ∈ files) := by
      simpa [List.mem_append] using h2
    simp [download_audio, h', h1, h2']
    exact fun hmem => h2' (Or.inl hmem)

/-- Witness for C8: a concrete tool behavior that reports success but
creates an unrelated file yields the missing-output acquisition error. -/
theorem C8_acquire_contract_witness :
    ((([] : List String).contains (pathJoin "wd/audio" ("v" ++ ".mp3")) = false)
      ∧ ({ downloadOk := true, downloadAdds := ["wd/audio/v.webm"], denoiseOk := true,
           normalizeOk := true, trimOk := true : ToolBehavior }.downloadOk = true)
      ∧ ((["wd/audio/v.webm"] ++ ([] : List String)).contains
          (pathJoin "wd/audio" ("v" ++ ".mp3")) = false))
    ∧ download_audio
        { downloadOk := true, downloadAdds := ["wd/audio/v.webm"], denoiseOk := true,
          normalizeOk := true, trimOk := true } "v" "wd/audio" [] =
        (.error .missingOutput, ["wd/audio/v.webm"] ++ [], [.download]) := by
  refine ⟨⟨by decide, by decide, by decide⟩, ?_⟩
  exact (C8_acquire_contract
    { downloadOk := true, downloadAdds := ["wd/audio/v.webm"], denoiseOk := true,
      normalizeOk := true, trimOk := true } "v" "wd/audio" [] (by decide)).2
    (by decide) (by decide)

/-! ## Transcription Stage (`OpenAIClient::transcribe`, openai.rs:178-253)

`f64` times are modelled as `ℚ`.  The Whisper backend is an oracle mapping
(chunk path, continuation hint) to a response or an error; the filesystem
interaction (existing chunk files, the ffmpeg split) is summarized by a
`TranscribeEnv`, whose chunk lists are in filename-sorted order (the code
collects `read_dir` entries and `sort()`s them). -/

structure TranscribeSegment where
  start : ℚ
  /-- the Rust field `end` -/
  endTime : ℚ
  text : String
  deriving DecidableEq, Repr

structure TranscribeResponse where
  duration : ℚ
  text : String
  segments : Option (List TranscribeSegment)
  deriving DecidableEq, Repr

inductive OpenAIError
  | request
  | io
  | api
  | ffmpeg
  /-- `Unsupported input: OpenAI transcriber only supports chunked input` -/
  | unsupportedInput
  deriving DecidableEq, Repr

inductive AudioInput
  | chunked (chunk_duration_seconds : Nat) (chunks_dir_path : String) (file_path : String)
  | file (path : String)
  deriving DecidableEq, Repr

/-- Rust `str::trim` (both ends; only ASCII whitespace can occur in the
strings this code assembles). -/
def rustTrim (s : String) : String :=
  ⟨((s.data.dropWhile Char.isWhitespace).reverse.dropWhile Char.isWhitespace).reverse⟩

/-- `seg.start += time_offset; seg.end += time_offset` (openai.rs:234-236). -/
def shiftSegment (off : ℚ) (s : TranscribeSegment) : TranscribeSegment :=
  { s with start := s.start + off, endTime := s.endTime + off }

/-- The sequential chunk loop of `transcribe` (openai.rs:219-252): running
time offset incremented by `chunk_duration_seconds` per chunk, previous
chunk text carried as the next request's prompt, segments appended after
offset-shifting, texts appended each followed by a single space, durations
summed; the final response carries the trimmed text and all segments. -/
def transcribe_chunks
    (backend : String → Option String → Except OpenAIError TranscribeResponse) (chunkDur : ℚ) :
    List String → Option String → ℚ → ℚ → List TranscribeSegment → String →
      Except OpenAIError TranscribeResponse
  | [], _, _, dur, segs, txt =>
    .ok { duration := dur, text := rustTrim txt, segments := some segs }
  | c :: rest, prev, off, dur, segs, txt =>
    match backend c prev with
    | .error e => .error e
    | .ok r =>
      transcribe_chunks backend chunkDur rest (some r.text) (off + chunkDur)
        (dur + r.duration) (segs ++ (r.segments.getD []).map (shiftSegment off))
        (txt ++ r.text ++ " ")

/-- Environment of one `transcribe` call: the chunk files already present
in the chunks directory (filename-sorted), the outcome of the ffmpeg split
when needed, and the transcription backend. -/
structure TranscribeEnv where
  existingChunks : List String
  splitOk : Bool
  splitChunks : List String
  backend : String → Option String → Except OpenAIError TranscribeResponse

/-- `OpenAIClient::transcribe` (openai.rs:178-253): non-chunked input is
rejected with `UnsupportedInput`; for chunked input the chunk files are
reused when present, created by the ffmpeg split otherwise, and then
transcribed sequentially in filename-sorted order. -/
def openai_transcribe (env : TranscribeEnv) (input : AudioInput) :
    Except OpenAIError TranscribeResponse :=
  match input with
  | .file _ => .error .unsupportedInput
  | .chunked d _ _ =>
    match (if env.existingChunks.isEmpty then
            (if env.splitOk then Except.ok env.splitChunks else Except.error OpenAIError.ffmpeg)
          else Except.ok env.existingChunks) with
    | .error e => .error e
    | .ok chunks => transcribe_chunks env.backend (d : ℚ) chunks none 0 0 [] ""

/-- Space-joined concatenation of the chunk texts (the spec's wording for
the final transcript text, to be compared with the loop's accumulator). -/
def joinSpace : List String → String
  | [] => ""
  | [t] => t
  | t :: ts => t ++ " " ++ joinSpace ts

/-- The loop's text accumulator: each chunk text followed by one space. -/
def catSpace : List String → String
  | [] => ""
  | t :: ts => t ++ " " ++ catSpace ts

theorem catSpace_eq_joinSpace_append {ts : List String} (h : ts ≠ []) :
    catSpace ts = joinSpace ts ++ " " := by
  induction ts with
  | nil => simp at h
  | cons t ts ih =>
    cases ts with
    | nil => simp [catSpace, joinSpace]
    | cons u us =>
      show t ++ " " ++ catSpace (u :: us) = (t ++ " " ++ joinSpace (u :: us)) ++ " "
      rw [ih (by simp), ← String.append_assoc]

theorem trimChars_append_space (l : List Char) :
    ((l ++ [' ']).dropWhile Char.isWhitespace).reverse.dropWhile Char.isWhitespace =
      (l.dropWhile Char.isWhitespace).reverse.dropWhile Char.isWhitespace := by
  rw [List.dropWhile_append]
  split
  · rename_i hemp
    rw [List.isEmpty_iff] at hemp
    rw [hemp]
    decide
  · rw [List.reverse_append]
    simp only [List.reverse_cons, List.reverse_nil, List.nil_append, List.singleton_append]
    rw [List.dropWhile_cons_of_pos (by decide)]

theorem rustTrim_append_space (s : String) : rustTrim (s ++ " ") = rustTrim s := by
  have hdata : (s ++ " ").data = s.data ++ [' '] := by simp
  unfold rustTrim
  rw [hdata, trimChars_append_space]

theorem rustTrim_catSpace (ts : List String) :
    rustTrim (catSpace ts) = rustTrim (joinSpace ts) := by
  cases h : ts with
  | nil => rfl
  | cons t rest =>
    rw [catSpace_eq_joinSpace_append (by simp), rustTrim_append_space]

/-- The chunk segments as assembled by the loop starting from offset
`off`: chunk `i` (0-based from the start of the remaining list) is shifted
by `off + i * d`. -/
def specShiftSegs (respOf : String → TranscribeResponse) (d : ℚ) :
    List String → ℚ → List TranscribeSegment
  | [], _ => []
  | c :: rest, off =>
    ((respOf c).segments.getD []).map (shiftSegment off) ++ specShiftSegs respOf d rest (off + d)

theorem flatMap_congr {α β : Type} {l : List α} {f g : α → List β} (h : ∀ x ∈ l, f x = g x) :
    l.flatMap f = l.flatMap g := by
  simp only [List.flatMap]
  rw [List.map_congr_left h]

theorem specShiftSegs_eq (respOf : String → TranscribeResponse) (d : ℚ) (chunks : List String) :
    ∀ off : ℚ, specShiftSegs respOf d chunks off =
      (chunks.map respOf).enum.flatMap fun p =>
        (p.2.segments.getD []).map (shiftSegment (off + (p.1 : ℚ) * d)) := by
  induction chunks with
  | nil => intro off; rfl
  | cons c rest ih =>
    intro off
    rw [specShiftSegs, ih (off + d), List.map_cons, List.enum_cons', List.flatMap_cons,
      List.flatMap_map]
    congr 1
    · simp
    · refine flatMap_congr fun p _ => ?_
      have : off + d + (p.1 : ℚ) * d = off + ((p.1 : ℚ) + 1) * d := by ring
      simp [Prod.map, this]

/-- Generalized invariant of the chunk loop under an always-succeeding
backend: accumulators thread through, the offset applied to chunk `i` is
the initial offset plus `i * chunk_duration`. -/
theorem transcribe_chunks_spec (respOf : String → TranscribeResponse) (d : ℚ)
    (chunks : List String) :
    ∀ (prev : Option String) (off dur : ℚ) (segs : List TranscribeSegment) (txt : String),
      transcribe_chunks (fun c _ => .ok (respOf c)) d chunks prev off dur segs txt =
        .ok { duration := dur + ((chunks.map respOf).map (fun r => r.duration)).sum
              text := rustTrim (txt ++ catSpace (chunks.map fun c => (respOf c).text))
              segments := some (segs ++ specShiftSegs respOf d chunks off) } := by
  induction chunks with
  | nil =>
    intro prev off dur segs txt
    simp [transcribe_chunks, catSpace, specShiftSegs]
  | cons c rest ih =>
    intro prev off dur segs txt
    rw [transcribe_chunks]
    dsimp only
    rw [ih]
    simp only [Except.ok.injEq, TranscribeResponse.mk.injEq, List.map_cons, List.sum_cons,
      catSpace, specShiftSegs, Option.some.injEq]
    refine ⟨by ring, ?_, ?_⟩
    · rw [← String.append_assoc, ← String.append_assoc]
    · rw [List.append_assoc]

/-- A segment starting (and ending) at `a` seconds, for the C2 example. -/
def exSeg (a : ℚ) : TranscribeSegment := { start := a, endTime := a, text := "s" }

/-- Backend responses of the spec's 3-chunk example: three 900 s chunks
with reported segment starts `[0,10]`, `[0,5]`, `[0,20]`. -/
def exRespOf (c : String) : TranscribeResponse :=
  if c = "c_000" then { duration := 900, text := "t0", segments := some [exSeg 0, exSeg 10] }
  else if c = "c_001" then { duration := 900, text := "t1", segments := some [exSeg 0, exSeg 5] }
  else { duration := 900, text := "t2", segments := some [exSeg 0, exSeg 20] }

/-- **C2**: with chunks transcribed in filename-sorted order by an
always-succeeding backend, the offset added to the timestamps of chunk `i`
is `i * chunk_duration_seconds`, the reassembled text is the space-joined,
trimmed concatenation of the chunk texts, the total duration is the sum of
the chunk-reported durations; and for 3 chunks of 900 s with reported
segment starts `[0,10]`, `[0,5]`, `[0,20]` the reassembled starts are
`[0,10,900,905,1800,1820]`. -/
theorem C2_chunked_transcription (chunkDur : ℚ) (chunks : List String)
    (respOf : String → TranscribeResponse) :
    (transcribe_chunks (fun c _ => .ok (respOf c)) chunkDur chunks none 0 0 [] "" =
      .ok { duration := ((chunks.map respOf).map (fun r => r.duration)).sum
            text := rustTrim (joinSpace (chunks.map fun c => (respOf c).text))
            segments := some ((chunks.map respOf).enum.flatMap fun p =>
              (p.2.segments.getD []).map (shiftSegment ((p.1 : ℚ) * chunkDur))) })
    ∧ ((transcribe_chunks (fun c _ => .ok (exRespOf c)) 900
          ["c_000", "c_001", "c_002"] none 0 0 [] "").map
        (fun r => (r.segments.getD []).map (fun sg => sg.start)) =
      .ok [0, 10, 900, 905, 1800, 1820]) := by
  constructor
  · rw [transcribe_chunks_spec respOf chunkDur chunks none 0 0 [] ""]
    rw [specShiftSegs_eq respOf chunkDur chunks 0]
    simp only [zero_add, String.empty_append, List.nil_append]
    rw [rustTrim_catSpace]
  · simp only [transcribe_chunks, exRespOf, exSeg, shiftSegment, Except.map, Option.getD,
      reduceIte, List.map_cons, List.map_nil]
    rw [if_neg (by decide : ¬ ("c_001" : String) = "c_000"),
      if_neg (by decide : ¬ ("c_002" : String) = "c_000"),
      if_neg (by decide : ¬ ("c_002" : String) = "c_001")]
    norm_num [shiftSegment]

/-- An environment whose chunked branch would even fail at the backend:
irrelevant for single-file input, which is rejected before any work. -/
def envDemo : TranscribeEnv :=
  { existingChunks := [], splitOk := true, splitChunks := [],
    backend := fun _ _ => .error .api }

/-- **C7 (counterexample)**: a single (non-chunked) audio file is rejected
by the OpenAI transcriber with `UnsupportedInput` — it is not transcribed
in one backend call, refuting the claimed success. -/
theorem C7_single_file_counterexample :
    openai_transcribe envDemo (.file "wd/audio/v_trimmed.mp3") = .error .unsupportedInput := rfl

/-- **C7 (amended)**: for every environment and every single-file input,
`transcribe` rejects the input with the `UnsupportedInput` error (only
chunked input is supported); no offset arithmetic and no backend call
happens. -/
theorem C7_single_file_amended (env : TranscribeEnv) (p : String) :
    openai_transcribe env (.file p) = .error .unsupportedInput := rfl

/-! ## Summarization & Commit phase of `run` (processor.rs:202-232)

The loop transcribes and summarizes each selected stream sequentially,
attaching `summary_md`; after the loop, the whole batch is persisted with
one `bulk_insert_streams` call.  The transcriber and summarizer are
oracles; every externally visible action is recorded as a `CommitEvent` so
that the ordering of summarization and persistence is observable. -/

inductive CommitEvent
  | transcribeItem (video_id : String)
  | summarizeItem (video_id : String)
  /-- a single-item insert, as described by the spec; `run` never emits
  this event. -/
  | insertOne (video_id : String)
  /-- the one `bulk_insert_streams` call after the loop. -/
  | bulkInsert (video_ids : List String)
  deriving DecidableEq, Repr

def isInsertEvent : CommitEvent → Bool
  | .insertOne _ => true
  | .bulkInsert _ => true
  | _ => false

/-- Oracles for the two LLM calls of the loop: transcription by video id,
summarization by transcript text. -/
structure PipelineEnv where
  transcribeRes : String → Except String String
  summarizeRes : String → Except String String

/-- The `for (audio_path, stream) in stream_audio_paths` loop
(processor.rs:202-228): transcribe, summarize, attach `summary_md`; any
failure aborts immediately. -/
def summarize_commit_loop (env : PipelineEnv) :
    List Stream → List Stream → List CommitEvent →
      List CommitEvent × Except String (List Stream)
  | [], done, evs => (evs, .ok done)
  | s :: rest, done, evs =>
    match env.transcribeRes s.video_id with
    | .error e => (evs ++ [.transcribeItem s.video_id], .error e)
    | .ok txt =>
      match env.summarizeRes txt with
      | .error e => (evs ++ [.transcribeItem s.video_id, .summarizeItem s.video_id], .error e)
      | .ok sum =>
        summarize_commit_loop env rest (done ++ [{ s with summary_md := some sum }])
          (evs ++ [.transcribeItem s.video_id, .summarizeItem s.video_id])

/-- The whole Summarization & Commit phase of `run` (processor.rs:202-232):
the sequential loop followed — only on success — by the single
`bulk_insert_streams` call on the whole batch. -/
def run_commit_phase (env : PipelineEnv) (streams : List Stream) :
    List CommitEvent × Except String (List Stream) :=
  match summarize_commit_loop env streams [] [] with
  | (evs, .error e) => (evs, .error e)
  | (evs, .ok done) => (evs ++ [.bulkInsert (done.map fun s => s.video_id)], .ok done)

/-- Modelled from the spec: the event trace §4.5 describes, in which each
item is persisted via a single-item insert immediately after its summary is
attached and before the next item is summarized. -/
def per_item_commit_trace (ids : List String) : List CommitEvent :=
  ids.flatMap fun i => [.transcribeItem i, .summarizeItem i, .insertOne i]

/-- Oracles that always succeed. -/
def envOkDemo : PipelineEnv :=
  { transcribeRes := fun i => .ok ("T" ++ i), summarizeRes := fun t => .ok ("S" ++ t) }

/-- Oracles where summarization of the second item's transcript fails. -/
def envFailDemo : PipelineEnv :=
  { transcribeRes := fun i => .ok ("T" ++ i),
    summarizeRes := fun t => if t = "Tb" then .error "rate limit" else .ok ("S" ++ t) }

/-- **C4 (counterexample)**: with two items and all calls succeeding, the
run's trace summarizes both items before any insert happens, and is not the
per-item insert trace the claim describes; moreover, when the second item's
summarization fails, no insert of any kind has happened — the first item,
fully summarized before the failure, has NOT been committed. -/
theorem C4_per_item_commit_counterexample :
    (run_commit_phase envOkDemo [streamA, streamB]).1 =
      [.transcribeItem "a", .summarizeItem "a", .transcribeItem "b", .summarizeItem "b",
        .bulkInsert ["a", "b"]]
    ∧ (run_commit_phase envOkDemo [streamA, streamB]).1 ≠ per_item_commit_trace ["a", "b"]
    ∧ (run_commit_phase envFailDemo [streamA, streamB]).2 = .error "rate limit"
    ∧ (run_commit_phase envFailDemo [streamA, streamB]).1.filter isInsertEvent = [] := by
  refine ⟨by decide, by decide, rfl, by decide⟩

/-- Generalized invariant of the loop: on success the trace appends the
transcribe/summarize pair of every item in order and every processed item
carries a summary; on failure no insert-like event has been appended. -/
theorem summarize_commit_loop_spec (env : PipelineEnv) (streams : List Stream) :
    ∀ (done : List Stream) (evs : List CommitEvent),
      (∀ d, (summarize_commit_loop env streams done evs).2 = .ok d →
        (summarize_commit_loop env streams done evs).1 =
          evs ++ (streams.flatMap fun s => [.transcribeItem s.video_id, .summarizeItem s.video_id])
        ∧ d.map (fun s => s.video_id) =
            done.map (fun s => s.video_id) ++ streams.map (fun s => s.video_id)
        ∧ (∀ s ∈ d, s ∈ done ∨ s.summary_md.isSome))
      ∧ (∀ e, (summarize_commit_loop env streams done evs).2 = .error e →
          (summarize_commit_loop env streams done evs).1.filter isInsertEvent =
            evs.filter isInsertEvent) := by
  induction streams with
  | nil =>
    intro done evs
    refine ⟨?_, ?_⟩
    · intro d hd
      obtain rfl : done = d := by simpa [summarize_commit_loop] using hd
      exact ⟨by simp [summarize_commit_loop], by simp, fun s hs => Or.inl hs⟩
    · intro e he
      simp [summarize_commit_loop] at he
  | cons s rest ih =>
    intro done evs
    refine ⟨?_, ?_⟩
    · intro d hd
      simp only [summarize_commit_loop] at hd ⊢
      cases ht : env.transcribeRes s.video_id with
      | error e =>
        rw [ht] at hd
        simp at hd
      | ok txt =>
        rw [ht] at hd
        dsimp only at hd ⊢
        cases hs : env.summarizeRes txt with
        | error e =>
          rw [hs] at hd
          simp at hd
        | ok sum =>
          rw [hs] at hd
          dsimp only at hd ⊢
          obtain ⟨h1, h2, h3⟩ := (ih _ _).1 d hd
          refine ⟨?_, ?_, ?_⟩
          · rw [h1]
            simp
          · rw [h2]
            simp
          · intro x hx
            rcases h3 x hx with hx' | hx'
            · rcases List.mem_append.mp hx' with hx'' | hx''
              · exact Or.inl hx''
              · right
                rcases List.mem_singleton.mp hx''
                rfl
            · exact Or.inr hx'
    · intro e he
      simp only [summarize_commit_loop] at he ⊢
      cases ht : env.transcribeRes s.video_id with
      | error e' =>
        simp [List.filter_append, isInsertEvent]
      | ok txt =>
        rw [ht] at he
        dsimp only at he ⊢
        cases hs : env.summarizeRes txt with
        | error e' =>
          simp [List.filter_append, isInsertEvent]
        | ok sum =>
          rw [hs] at he
          dsimp only at he ⊢
          rw [(ih _ _).2 e he]
          simp [List.filter_append, isInsertEvent]

/-- **C4 (amended)**: items are transcribed and summarized strictly
sequentially, but persistence is not per-item: on success the whole batch
is committed by a single bulk insert after every item has been summarized
(each committed item carrying its summary), and on failure no insert of any
kind has happened — an item summarized before a later failure has not been
committed. -/
theorem C4_commit_phase_amended (env : PipelineEnv) (streams : List Stream) :
    (∀ done, (run_commit_phase env streams).2 = .ok done →
      (run_commit_phase env streams).1 =
        (streams.flatMap fun s => [.transcribeItem s.video_id, .summarizeItem s.video_id])
          ++ [.bulkInsert (streams.map fun s => s.video_id)]
      ∧ done.map (fun s => s.video_id) = streams.map (fun s => s.video_id)
      ∧ (∀ s ∈ done, s.summary_md.isSome))
    ∧ (∀ e, (run_commit_phase env streams).2 = .error e →
        (run_commit_phase env streams).1.filter isInsertEvent = []) := by
  constructor
  · intro done hdone
    unfold run_commit_phase at hdone ⊢
    cases hloop : summarize_commit_loop env streams [] [] with
    | mk evs r =>
      (try rw [hloop] at hdone)
      (try rw [hloop])
      cases r with
      | error e => simp at hdone
      | ok d =>
        dsimp only at hdone ⊢
        obtain rfl : d = done := by simpa using hdone
        obtain ⟨h1, h2, h3⟩ :=
          (summarize_commit_loop_spec env streams [] []).1 d (by rw [hloop])
        rw [hloop] at h1
        dsimp only at h1
        simp only [List.nil_append] at h1
        refine ⟨?_, ?_, ?_⟩
        · rw [h1]
          simp only [List.map_nil, List.nil_append] at h2
          rw [h2]
        · simpa using h2
        · intro s hs
          rcases h3 s hs with h | h
          · simp at h
          · exact h
  · intro e he
    unfold run_commit_phase at he ⊢
    cases hloop : summarize_commit_loop env streams [] [] with
    | mk evs r =>
      (try rw [hloop] at he)
      (try rw [hloop])
      cases r with
      | error e' =>
        have h2 := (summarize_commit_loop_spec env streams [] []).2 e' (by rw [hloop])
        rw [hloop] at h2
        dsimp only at h2 ⊢
        simpa using h2
      | ok d => simp at he

/-- Witness for the amended C4: the all-succeeding two-item run commits
exactly once, by bulk insert, after both items are summarized. -/
theorem C4_commit_phase_amended_witness :
    ((run_commit_phase envOkDemo [streamA, streamB]).2 =
      .ok [{ streamA with summary_md := some "STa" }, { streamB with summary_md := some "STb" }])
    ∧ ((run_commit_phase envOkDemo [streamA, streamB]).1 =
        ([streamA, streamB].flatMap fun s => [.transcribeItem s.video_id, .summarizeItem s.video_id])
          ++ [.bulkInsert ([streamA, streamB].map fun s => s.video_id)]
      ∧ ([{ streamA with summary_md := some "STa" }, { streamB with summary_md := some "STb" }].map
          (fun s => s.video_id)) = [streamA, streamB].map (fun s => s.video_id)
      ∧ (∀ s ∈ [{ streamA with summary_md := some "STa" },
            { streamB with summary_md := some "STb" }], s.summary_md.isSome)) := by
  refine ⟨rfl, ?_⟩
  exact (C4_commit_phase_amended envOkDemo [streamA, streamB]).1
    [{ streamA with summary_md := some "STa" }, { streamB with summary_md := some "STb" }] rfl

/-! ## Datastore bulk insert (`PgDataStore::bulk_insert_streams`,
postgres.rs:64-142)

Streams are partitioned on whether `timestamp_from_time_ago()` yields a
timestamp; the ones that do are inserted by a single
`INSERT ... ON CONFLICT DO NOTHING` statement, the others are reported as
`failed_inserts`.  The database table is modelled as the list of primary
keys (`video_id`s) it holds; the SQL statement's row-by-row semantics — a
row is skipped, not an error, when its key conflicts with an existing row
or an earlier row of the same statement, and `rows_affected` counts the
rows actually inserted — is embedded as `insertRows`. -/

structure FailedInsert where
  video_id : String
  /-- the `InsertFailReason::InvalidStreamedDate` payload. -/
  malformed_date : String
  deriving DecidableEq, Repr

structure BulkInsertResult where
  successful_inserts : Nat
  failed_inserts : List FailedInsert
  deriving DecidableEq, Repr

/-- `ON CONFLICT DO NOTHING` insert of a list of keys into the table. -/
def insertRows (db : List String) : List String → List String × Nat
  | [] => (db, 0)
  | id :: rest =>
    if db.contains id then insertRows db rest
    else
      let r := insertRows (id :: db) rest
      (r.1, r.2 + 1)

/-- `bulk_insert_streams` (postgres.rs:64-142): `partition_map` on the
derived timestamp, one SQL statement for the valid part, the invalid part
reported (with the malformed date) in `failed_inserts`; only a failure of
the SQL statement itself is an error. -/
def bulk_insert_streams (tsOf : Stream → Option Int) (sqlOk : Bool) (db : List String)
    (streams : List Stream) : Except String (List String × BulkInsertResult) :=
  let valid := streams.filter fun s => (tsOf s).isSome
  let failed := (streams.filter fun s => (tsOf s).isNone).map fun s =>
    { video_id := s.video_id, malformed_date := s.streamed_date : FailedInsert }
  if sqlOk then
    let r := insertRows db (valid.map fun s => s.video_id)
    .ok (r.1, { successful_inserts := r.2, failed_inserts := failed })
  else .error "Failed to execute bulk insert for streams"

theorem insertRows_mem (ids : List String) :
    ∀ (db : List String) (x : String), x ∈ (insertRows db ids).1 ↔ x ∈ db ∨ x ∈ ids := by
  induction ids with
  | nil => intro db x; simp [insertRows]
  | cons id rest ih =>
    intro db x
    rw [insertRows]
    split
    · rename_i hmem
      rw [ih db x]
      constructor
      · rintro (h | h)
        · exact Or.inl h
        · exact Or.inr (List.mem_cons_of_mem _ h)
      · rintro (h | h)
        · exact Or.inl h
        · rcases List.mem_cons.mp h with rfl | h'
          · exact Or.inl (by simpa using hmem)
          · exact Or.inr h'
    · rw [ih (id :: db) x]
      simp only [List.mem_cons]
      tauto

theorem insertRows_length (ids : List String) :
    ∀ db : List String, (insertRows db ids).1.length = db.length + (insertRows db ids).2 := by
  induction ids with
  | nil => intro db; simp [insertRows]
  | cons id rest ih =>
    intro db
    rw [insertRows]
    split
    · exact ih db
    · have := ih (id :: db)
      simp only [List.length_cons] at this
      simp only [this]
      omega

theorem insertRows_count_le (ids : List String) :
    ∀ db : List String, (insertRows db ids).2 ≤ ids.length := by
  induction ids with
  | nil => intro db; simp [insertRows]
  | cons id rest ih =>
    intro db
    rw [insertRows]
    split
    · exact Nat.le_succ_of_le (ih db)
    · simpa using Nat.succ_le_succ (ih (id :: db))

/-- **C10**: streams with unparsable relative dates are excluded from the
SQL insert and reported in `failed_inserts` while the call still returns
success; rows whose id conflicts (with the table or an earlier batch row)
are silently skipped, never an error; the table only ever gains valid ids;
and `successful_inserts` can be strictly smaller than the batch size, as a
concrete 3-stream batch (one bad date, one duplicate id) shows. -/
theorem C10_bulk_insert_behavior (tsOf : Stream → Option Int) (db : List String)
    (streams : List Stream) :
    (bulk_insert_streams tsOf true db streams).isOk = true
    ∧ (∀ db' res, bulk_insert_streams tsOf true db streams = .ok (db', res) →
        res.failed_inserts = (streams.filter fun s => (tsOf s).isNone).map (fun s =>
          { video_id := s.video_id, malformed_date := s.streamed_date })
        ∧ (∀ x, x ∈ db' ↔ x ∈ db ∨
            x ∈ (streams.filter fun s => (tsOf s).isSome).map fun s => s.video_id)
        ∧ db'.length = db.length + res.successful_inserts
        ∧ res.successful_inserts ≤ streams.length)
    ∧ bulk_insert_streams tsDemo true ["a"] [streamN, streamA, streamB] =
        .ok (["b", "a"],
          { successful_inserts := 1,
            failed_inserts := [{ video_id := "n", malformed_date := "Streamed live" }] })
    ∧ (1 : Nat) < 3 := by
  refine ⟨rfl, ?_, rfl, by decide⟩
  intro db' res h
  rw [bulk_insert_streams] at h
  simp only [if_pos rfl] at h
  cases h
  refine ⟨rfl, ?_, ?_, ?_⟩
  · intro x
    exact (insertRows_mem _ db x).trans (by simp)
  · exact insertRows_length _ db
  · calc (insertRows db ((streams.filter fun s => (tsOf s).isSome).map fun s => s.video_id)).2
        ≤ ((streams.filter fun s => (tsOf s).isSome).map fun s => s.video_id).length :=
          insertRows_count_le _ db
      _ ≤ streams.length := by
          rw [List.length_map]
          exact List.length_filter_le _ _

/-- Witness for C10: on the concrete 3-stream batch, the bad-date stream is
reported failed, the duplicate is skipped, and one row is inserted. -/
theorem C10_bulk_insert_behavior_witness :
    (bulk_insert_streams tsDemo true ["a"] [streamN, streamA, streamB] =
      .ok (["b", "a"],
        { successful_inserts := 1,
          failed_inserts := [{ video_id := "n", malformed_date := "Streamed live" }] }))
    ∧ ([{ video_id := "n", malformed_date := "Streamed live" : FailedInsert }] =
        ([streamN, streamA, streamB].filter fun s => (tsDemo s).isNone).map (fun s =>
          { video_id := s.video_id, malformed_date := s.streamed_date })
      ∧ (∀ x, x ∈ ["b", "a"] ↔ x ∈ ["a"] ∨
          x ∈ (([streamN, streamA, streamB].filter fun s => (tsDemo s).isSome).map
            fun s => s.video_id))
      ∧ (["b", "a"] : List String).length = (["a"] : List String).length + 1
      ∧ 1 ≤ ([streamN, streamA, streamB] : List Stream).length) := by
  refine ⟨rfl, ?_⟩
  exact (C10_bulk_insert_behavior tsDemo ["a"] [streamN, streamA, streamB]).2.1
    ["b", "a"]
    { successful_inserts := 1,
      failed_inserts := [{ video_id := "n", malformed_date := "Streamed live" }] } rfl

end BungeBits
